import Mathlib

/-!
# Verification of the pyGREAT local enrichment engine

Shallow embedding of the `pygreat.local` analysis subsystem (gene
regulatory-domain computation, region-gene association, enrichment
statistics and multiple-testing correction) together with the region
model (`pygreat.models.regions`).

Conventions of the embedding:
* Python `int` is modelled by `Int` (arbitrary precision, possibly
  negative intermediates); Python `float` quantities of the statistics
  layer are modelled exactly over `ℚ` (the mathematical values the
  floating-point code approximates).
* Python `dict` values iterated in insertion order are modelled by
  lists; `dict` lookup is `List.lookup` (keys of the modelled dicts are
  unique in the source).
* Python's stable sorts (`sorted`, `numpy.argsort`, pandas
  `sort_values`) are modelled by the stable `List.insertionSort`.
* Functions that `raise` are modelled with `Except String`.
* Source names are kept where Lean allows; leading underscores are
  dropped (`_compute_basal_plus_ext` becomes `compute_basal_plus_ext`),
  and the class `GeneAnnotation` of `pygreat/local/genes.py` is named
  `GeneAnnot` here.
-/

/-- A gene with TSS and regulatory domain, from `pygreat/local/genes.py`
(`Gene` dataclass).  `reg_start`/`reg_end` default to 0 as in the
source. -/
structure Gene where
  gene_id : String
  gene_name : String
  chrom : String
  tss : Int
  strand : String
  reg_start : Int := 0
  reg_end : Int := 0
deriving DecidableEq, Inhabited

/-- The gene annotation store (`GeneAnnotation` in
`pygreat/local/genes.py`).  The `genes` dict (`gene_id -> Gene`,
insertion ordered, unique keys) is modelled as the list of its values;
`chrom_sizes` as an association list. -/
structure GeneAnnot where
  genes : List Gene := []
  chrom_sizes : List (String × Int) := []
  organism : String := ""
deriving DecidableEq, Inhabited

/-- Byte-wise lexicographic comparison of char lists; models Python's
`<=` on strings (code-point order), written so the kernel can evaluate
it. -/
def charListLe : List Char → List Char → Bool
  | [], _ => true
  | _ :: _, [] => false
  | a :: as, b :: bs =>
    if a.toNat < b.toNat then true
    else if b.toNat < a.toNat then false
    else charListLe as bs

/-- Python string `<=`, used by `sorted` on chromosome names. -/
def strLe (a b : String) : Bool := charListLe a.data b.data

/-- `GeneAnnotation.get_genes_by_chrom`: all genes on a chromosome,
sorted by TSS ascending (Python `sorted` is stable). -/
def get_genes_by_chrom (ann : GeneAnnot) (chrom : String) : List Gene :=
  List.insertionSort (fun a b => a.tss ≤ b.tss)
    (ann.genes.filter (fun g => g.chrom = chrom))

/-- `GeneAnnotation.get_all_chromosomes`: `sorted(set(...))` over the
chromosomes of all genes. -/
def get_all_chromosomes (ann : GeneAnnot) : List String :=
  List.insertionSort (fun a b => strLe a b = true)
    ((ann.genes.map (fun g => g.chrom)).dedup)

/-- `annotation.chrom_sizes.get(chrom, 300_000_000)`. -/
def chromSizeOf (ann : GeneAnnot) (chrom : String) : Int :=
  (ann.chrom_sizes.lookup chrom).getD 300000000

/-- `_compute_basal_plus_ext` of `pygreat/local/genes.py` (lines
337-388).  Input `genes` is the TSS-sorted gene list of one chromosome;
output is the same list with `reg_start`/`reg_end` set (the Python
function mutates the `Gene` objects in place). -/
def compute_basal_plus_ext (genes : List Gene) (chrom_size : Int)
    (upstream : Int) (downstream : Int) (max_extension : Int) : List Gene :=
  let n := genes.length
  (List.range n).map (fun i =>
    let gene := genes.getD i default
    let basal_start := if gene.strand = "+" then gene.tss - upstream else gene.tss - downstream
    let basal_end := if gene.strand = "+" then gene.tss + downstream else gene.tss + upstream
    let ext_start := max 0 (gene.tss - max_extension)
    let ext_end := min chrom_size (gene.tss + max_extension)
    let reg_start := max basal_start ext_start
    let reg_start :=
      if 0 < i then
        let prev_gene := genes.getD (i - 1) default
        let prev_basal_end :=
          if prev_gene.strand = "+" then prev_gene.tss + downstream
          else prev_gene.tss + upstream
        max reg_start prev_basal_end
      else reg_start
    let reg_end := min basal_end ext_end
    let reg_end :=
      if i < n - 1 then
        let next_gene := genes.getD (i + 1) default
        let next_basal_start :=
          if next_gene.strand = "+" then next_gene.tss - upstream
          else next_gene.tss - downstream
        max reg_end (min ext_end next_basal_start)
      else reg_end
    { gene with reg_start := max 0 reg_start, reg_end := min chrom_size reg_end })

/-- `_compute_two_closest` of `pygreat/local/genes.py` (lines 391-419).
Python `//` is floor division, hence `Int.fdiv`. -/
def compute_two_closest (genes : List Gene) (chrom_size : Int)
    (max_extension : Int) : List Gene :=
  let n := genes.length
  (List.range n).map (fun i =>
    let gene := genes.getD i default
    let reg_start :=
      if 0 < i then
        let prev_tss := (genes.getD (i - 1) default).tss
        let mid_left := Int.fdiv (gene.tss + prev_tss) 2
        max (max 0 mid_left) (gene.tss - max_extension)
      else max 0 (gene.tss - max_extension)
    let reg_end :=
      if i < n - 1 then
        let next_tss := (genes.getD (i + 1) default).tss
        let mid_right := Int.fdiv (gene.tss + next_tss) 2
        min (min chrom_size mid_right) (gene.tss + max_extension)
      else min chrom_size (gene.tss + max_extension)
    { gene with reg_start := reg_start, reg_end := reg_end })

/-- `_compute_one_closest`: delegates to `_compute_two_closest` in the
source ("Same as two closest for now"). -/
def compute_one_closest (genes : List Gene) (chrom_size : Int)
    (max_extension : Int) : List Gene :=
  compute_two_closest genes chrom_size max_extension

/-- The per-chromosome loop body of `compute_regulatory_domains`
(`pygreat/local/genes.py` lines 319-332): for each chromosome in order,
dispatch on the rule or raise `ValueError` for an unknown rule.  The
updated genes are returned grouped by chromosome (the Python code
mutates the shared `Gene` objects of the `gene_id`-keyed dict, so only
the collection of updated genes is observable). -/
def domainsLoop (ann : GeneAnnot) (rule : String) (upstream : Int)
    (downstream : Int) (max_extension : Int) :
    List String → Except String (List Gene)
  | [] => Except.ok []
  | chrom :: rest =>
    let genes := get_genes_by_chrom ann chrom
    let chrom_size := chromSizeOf ann chrom
    let updated : Except String (List Gene) :=
      if rule = "basalPlusExt" then
        Except.ok (compute_basal_plus_ext genes chrom_size upstream downstream max_extension)
      else if rule = "twoClosest" then
        Except.ok (compute_two_closest genes chrom_size max_extension)
      else if rule = "oneClosest" then
        Except.ok (compute_one_closest genes chrom_size max_extension)
      else
        Except.error ("Unknown rule: " ++ rule)
    match updated with
    | Except.error e => Except.error e
    | Except.ok gs =>
      match domainsLoop ann rule upstream downstream max_extension rest with
      | Except.error e => Except.error e
      | Except.ok more => Except.ok (gs ++ more)

/-- `compute_regulatory_domains` of `pygreat/local/genes.py` (lines
295-334): compute domains for every chromosome, raising
`ValueError("Unknown rule: ...")` from inside the loop for an
unrecognized rule. -/
def compute_regulatory_domains (ann : GeneAnnot) (rule : String)
    (upstream : Int) (downstream : Int) (max_extension : Int) :
    Except String GeneAnnot :=
  match domainsLoop ann rule upstream downstream max_extension (get_all_chromosomes ann) with
  | Except.error e => Except.error e
  | Except.ok gs => Except.ok { ann with genes := gs }

/-- A single genomic region (`GenomicRegion` of
`pygreat/models/regions.py`). -/
structure GenomicRegion where
  chrom : String
  start : Int
  «end» : Int
  name : Option String := none
  score : Option ℚ := none
  strand : Option String := none
deriving DecidableEq, Inhabited

/-- `MAX_REGIONS` of `pygreat/core/config.py`. -/
def MAX_REGIONS : ℕ := 500000

/-- The per-region loop of `GenomicRegions.validate` (lines 294-302),
carrying the region index used in the error message. -/
def validateLoop : ℕ → List GenomicRegion → Except String Unit
  | _, [] => Except.ok ()
  | i, r :: rest =>
    if r.start < 0 then
      Except.error ("Region " ++ toString i ++ ": negative start coordinate " ++ toString r.start)
    else if r.«end» ≤ r.start then
      Except.error ("Region " ++ toString i ++ ": end (" ++ toString r.«end» ++ ") must be > start (" ++ toString r.start ++ ")")
    else validateLoop (i + 1) rest

/-- `GenomicRegions.validate` of `pygreat/models/regions.py` (lines
280-302).  The Python method returns `None` and leaves `self.regions`
untouched; success is modelled as `Except.ok` carrying the unchanged
region list. -/
def validate (regions : List GenomicRegion) : Except String (List GenomicRegion) :=
  if regions.length = 0 then Except.error "No regions provided"
  else if MAX_REGIONS < regions.length then
    Except.error ("Too many regions: " ++ toString regions.length)
  else
    match validateLoop 0 regions with
    | Except.error e => Except.error e
    | Except.ok _ => Except.ok regions

/-- Models Python `str.strip()` (drop leading and trailing
whitespace). -/
def pyStrip (s : List Char) : List Char :=
  ((s.dropWhile Char.isWhitespace).reverse.dropWhile Char.isWhitespace).reverse

/-- Models Python `str.split(sep)` for a one-character separator:
splits on every occurrence, keeping empty fields. -/
def splitOnChar (sep : Char) : List Char → List (List Char)
  | [] => [[]]
  | c :: rest =>
    match splitOnChar sep rest with
    | [] => [[c]]
    | g :: gs => if c = sep then [] :: g :: gs else (c :: g) :: gs

/-- Models Python `str.split()` with no argument: split on whitespace
runs, dropping empty fields. -/
def pySplitWhitespace (s : List Char) : List (List Char) :=
  (splitOnChar ' ' (s.map (fun c => if c.isWhitespace then ' ' else c))).filter
    (fun f => f ≠ [])

/-- Digit-string to number (`none` if empty or a non-digit occurs). -/
def digitsToNat? (s : List Char) : Option ℕ :=
  if s = [] then none
  else if s.all Char.isDigit then
    some (s.foldl (fun acc c => acc * 10 + (c.toNat - 48)) 0)
  else none

/-- Models Python `int(str)`: optional surrounding whitespace, optional
sign, decimal digits. -/
def pyInt? (s : List Char) : Option Int :=
  match pyStrip s with
  | '+' :: rest => (digitsToNat? rest).map (fun n => (n : Int))
  | '-' :: rest => (digitsToNat? rest).map (fun n => -(n : Int))
  | t => (digitsToNat? t).map (fun n => (n : Int))

/-- Models Python `float(str)` for plain decimal literals
(`d+`, `d+.d*`, `.d+`, with optional sign and surrounding whitespace);
exponent, `inf` and `nan` forms are not modelled, they do not occur in
BED score fields. -/
def pyFloat? (s : List Char) : Option ℚ :=
  let signed : ℚ × List Char :=
    match pyStrip s with
    | '+' :: rest => (1, rest)
    | '-' :: rest => (-1, rest)
    | t => (1, t)
  match splitOnChar '.' signed.2 with
  | [a] => (digitsToNat? a).map (fun n => signed.1 * n)
  | [a, b] =>
    if a.all Char.isDigit ∧ b.all Char.isDigit ∧ ¬(a = [] ∧ b = []) then
      some (signed.1 * ((a.foldl (fun acc c => acc * 10 + (c.toNat - 48)) 0 : ℕ)
        + (b.foldl (fun acc c => acc * 10 + (c.toNat - 48)) 0 : ℕ) / (10 : ℚ) ^ b.length))
    else none
  | _ => none

/-- Field-splitting step of `GenomicRegions.from_bed` (lines 116-121):
split on tabs; when that yields fewer than three fields, re-split on
arbitrary whitespace. -/
def bedFields (l : List Char) : List (List Char) :=
  let fields := splitOnChar '\t' l
  if fields.length < 3 then pySplitWhitespace l else fields

/-- Parse the split fields of one BED line into a region
(`GenomicRegions.from_bed` lines 123-136, with `zero_based=True`);
`none` models the `ValueError` caught and re-raised as
`InvalidRegionsError`. -/
def parseBedRegion (fields : List (List Char)) : Option GenomicRegion :=
  match pyInt? (fields.getD 1 []), pyInt? (fields.getD 2 []) with
  | some s, some e =>
    match (if 4 < fields.length then (pyFloat? (fields.getD 4 [])).map some else some none) with
    | none => none
    | some sc =>
      some { chrom := String.mk (fields.getD 0 []), start := s, «end» := e,
             name := if 3 < fields.length then some (String.mk (fields.getD 3 [])) else none,
             score := sc,
             strand := if 5 < fields.length then some (String.mk (fields.getD 5 [])) else none }
  | _, _ => none

/-- Whether the stripped line is skipped before field splitting
(`from_bed` lines 109-114): empty, comment, `track` or `browser`
lines. -/
def bedSkipLine (l : List Char) : Bool :=
  l = [] || List.isPrefixOf ['#'] l
    || List.isPrefixOf ['t', 'r', 'a', 'c', 'k'] l
    || List.isPrefixOf ['b', 'r', 'o', 'w', 's', 'e', 'r'] l

/-- The line loop of `GenomicRegions.from_bed` (lines 107-140): strip,
skip comments and short lines, parse fields, abort on the first
malformed line (`InvalidRegionsError`). -/
def from_bed_loop : List String → Except String (List GenomicRegion)
  | [] => Except.ok []
  | line :: rest =>
    let l := pyStrip line.data
    if bedSkipLine l then from_bed_loop rest
    else
      let fields := bedFields l
      if fields.length < 3 then from_bed_loop rest
      else
        match parseBedRegion fields with
        | none => Except.error ("Invalid BED format at line: " ++ String.mk l)
        | some r =>
          match from_bed_loop rest with
          | Except.error e => Except.error e
          | Except.ok rs => Except.ok (r :: rs)

/-- `GenomicRegions.from_bed` (lines 79-144) on the file's lines:
parse every line, then `validate` the collected regions. -/
def from_bed (lines : List String) : Except String (List GenomicRegion) :=
  match from_bed_loop lines with
  | Except.error e => Except.error e
  | Except.ok rs =>
    match validate rs with
    | Except.error e => Except.error e
    | Except.ok _ => Except.ok rs

/-- Exact upper-tail of the binomial law: `P(X > k)` for
`X ~ Binomial(n, p)`.  Models `scipy.stats.binom.sf(k, n, p)` (an
external library call in `pygreat/local/stats.py`) by the mathematical
value it approximates. -/
def binomSf (k : Int) (n : ℕ) (p : ℚ) : ℚ :=
  (((List.range (n + 1)).filter (fun (j : ℕ) => k < (j : Int))).map
    (fun j => (n.choose j : ℚ) * p ^ j * (1 - p) ^ (n - j))).sum

/-- `binomial_test` of `pygreat/local/stats.py` (lines 16-48). -/
def binomial_test (observed_regions : ℕ) (total_regions : ℕ)
    (genome_fraction : ℚ) : ℚ × ℚ :=
  if total_regions = 0 ∨ genome_fraction = 0 then (1, 0)
  else
    let expected : ℚ := (total_regions : ℚ) * genome_fraction
    let fold_enrichment : ℚ := if 0 < expected then (observed_regions : ℚ) / expected else 0
    let p_value := binomSf ((observed_regions : Int) - 1) total_regions genome_fraction
    (p_value, fold_enrichment)

/-- Exact upper-tail of the hypergeometric law with population `M`,
`n` success states and `N` draws: `P(X > k)`.  Models
`scipy.stats.hypergeom.sf(k, M, n, N)` by the mathematical value it
approximates. -/
def hypergeomSf (k : Int) (M : ℕ) (n : ℕ) (N : ℕ) : ℚ :=
  (((List.range (N + 1)).filter (fun (j : ℕ) => k < (j : Int))).map
    (fun j => (n.choose j : ℚ) * ((M - n).choose (N - j) : ℚ) / (M.choose N : ℚ))).sum

/-- `hypergeometric_test` of `pygreat/local/stats.py` (lines 51-97). -/
def hypergeometric_test (observed_genes : ℕ) (total_genes_in_regions : ℕ)
    (genes_in_term : ℕ) (total_genes_in_genome : ℕ) : ℚ × ℚ :=
  if total_genes_in_regions = 0 ∨ genes_in_term = 0 ∨ total_genes_in_genome = 0 then (1, 0)
  else
    let expected : ℚ :=
      ((total_genes_in_regions * genes_in_term : ℕ) : ℚ) / (total_genes_in_genome : ℚ)
    let fold_enrichment : ℚ := if 0 < expected then (observed_genes : ℚ) / expected else 0
    let p_value := hypergeomSf ((observed_genes : Int) - 1) total_genes_in_genome
      genes_in_term total_genes_in_regions
    (p_value, fold_enrichment)

/-- Comparison of index-value pairs by value: the order used by
`np.argsort(pvalues)` in `_benjamini_hochberg`. -/
def pairLe (x y : ℕ × ℚ) : Prop := x.2 ≤ y.2

instance : DecidableRel pairLe := fun x y => inferInstanceAs (Decidable (x.2 ≤ y.2))

instance : IsTotal (ℕ × ℚ) pairLe := ⟨fun x y => le_total x.2 y.2⟩

instance : IsTrans (ℕ × ℚ) pairLe := ⟨fun _ _ _ h1 h2 => le_trans h1 h2⟩

/-- Adjusted values of `_benjamini_hochberg` in sorted order: the `j`-th
element of the result is
`min over m ≥ j of min(sorted_pvals[m] * n / (m+1), 1)`, i.e. the rank
scaling of `stats.py` line 168 combined with the trailing cumulative
minimum of lines 173-176. -/
def bhRanked (n : ℕ) : ℕ → List ℚ → List ℚ
  | _, [] => []
  | j, p :: rest =>
    let tail := bhRanked n (j + 1) rest
    let a := min (p * (n : ℚ) / ((j : ℚ) + 1)) 1
    match tail with
    | [] => [a]
    | t :: _ => min a t :: tail

/-- `_benjamini_hochberg` of `pygreat/local/stats.py` (lines 147-178):
argsort the p-values, scale by rank, enforce monotonicity backwards,
and scatter the adjusted values back to the original positions.
`correct_pvalues` (the function `_test_enrichment` actually calls)
delegates to `scipy.stats.false_discovery_control`, the library
implementation of this same procedure, falling back to
`_benjamini_hochberg`; the algorithm is embedded once here.  The
unstable `np.argsort` tie order is modelled as stable. -/
def benjamini_hochberg (pvalues : List ℚ) : List ℚ :=
  let n := pvalues.length
  let sortedPairs := List.insertionSort pairLe pvalues.enum
  let adjusted := bhRanked n 0 (sortedPairs.map (fun pr => pr.2))
  (List.range n).map (fun i =>
    match (sortedPairs.zip adjusted).find? (fun pr => pr.1.1 == i) with
    | some pr => pr.2
    | none => 1)

/-- One row of an enrichment result table (`_test_enrichment` of
`pygreat/local/great.py`, lines 414-427 plus the columns added at lines
435-448).  Fields default to `0`/`""` only so that concrete rows can be
written compactly; the code always fills every field. -/
structure EnrichmentRow where
  term_id : String := ""
  term_name : String := ""
  binom_p : ℚ := 0
  binom_fold_enrichment : ℚ := 0
  observed_regions : ℕ := 0
  expected_regions : ℚ := 0
  genome_fraction : ℚ := 0
  hyper_p : ℚ := 0
  hyper_fold_enrichment : ℚ := 0
  observed_genes : ℕ := 0
  expected_genes : ℚ := 0
  total_genes : ℕ := 0
  binom_fdr : ℚ := 0
  hyper_fdr : ℚ := 0
  binom_bonferroni : ℚ := 0
  hyper_bonferroni : ℚ := 0
  binom_rank : ℕ := 0
  hyper_rank : Int := 0
deriving DecidableEq, Inhabited

/-- pandas `Series.rank()` (method `"average"`) of value `p` within the
column `ps`, truncated by `.astype(int)` (values are positive, so
truncation is the floor).  Used for `hyper_rank` at `great.py` line
448. -/
def pandasAvgRankInt (ps : List ℚ) (p : ℚ) : Int :=
  let less := (ps.filter (fun q => q < p)).length
  let eq := (ps.filter (fun q => q = p)).length
  Rat.floor ((less : ℚ) + ((eq : ℚ) + 1) / 2)

/-- The correction-and-ranking stage of `_test_enrichment`
(`pygreat/local/great.py` lines 432-448): add BH-FDR and Bonferroni
columns for the binomial and hypergeometric p-values, sort by ascending
binomial p-value (pandas `sort_values` is stable) and attach ranks. -/
def addCorrections (rows : List EnrichmentRow) : List EnrichmentRow :=
  let n := rows.length
  let binomFdr := benjamini_hochberg (rows.map (fun r => r.binom_p))
  let hyperFdr := benjamini_hochberg (rows.map (fun r => r.hyper_p))
  let withCols := (List.range n).map (fun i =>
    { rows.getD i default with
      binom_fdr := binomFdr.getD i 1,
      hyper_fdr := hyperFdr.getD i 1,
      binom_bonferroni := min ((rows.getD i default).binom_p * (n : ℚ)) 1,
      hyper_bonferroni := min ((rows.getD i default).hyper_p * (n : ℚ)) 1 })
  let sorted := List.insertionSort (fun a b => a.binom_p ≤ b.binom_p) withCols
  (List.range sorted.length).map (fun i =>
    { sorted.getD i default with
      binom_rank := i + 1,
      hyper_rank := pandasAvgRankInt (sorted.map (fun r => r.hyper_p))
        ((sorted.getD i default).hyper_p) })

/-- A gene set / term (`GeneSet` of `pygreat/local/genesets.py`); the
Python `set[str]` of member genes is a `Finset String`. -/
structure GeneSet where
  id : String := ""
  name : String := ""
  genes : Finset String := ∅
  description : String := ""
  ontology : String := ""
deriving DecidableEq, Inhabited

/-- `regions_hitting_term` of `_test_enrichment` (lines 385-389): the
number of regions whose gene-hit set intersects the term's genes. -/
def regionsHittingTerm (region_genes : List (String × Finset String))
    (term_genes : Finset String) : ℕ :=
  (region_genes.filter (fun rg => (rg.2 ∩ term_genes).Nonempty)).length

/-- `genes_in_term_hit` of `_test_enrichment` (line 392). -/
def genesInTermHit (hit_genes : Finset String) (term_genes : Finset String) : ℕ :=
  (hit_genes ∩ term_genes).card

/-- The per-term loop body of `LocalGreat._test_enrichment`
(`pygreat/local/great.py` lines 382-427): count the regions and genes
hitting the term, skip the term (`none`) when both counts are zero,
otherwise run both tests and build the result row. -/
def buildRow (n_regions : ℕ) (region_genes : List (String × Finset String))
    (hit_genes : Finset String) (genome_fractions : List (String × ℚ))
    (total_genes : ℕ) (entry : String × GeneSet) : Option EnrichmentRow :=
  let term_genes := entry.2.genes
  let regions_hitting_term := regionsHittingTerm region_genes term_genes
  let genes_in_term_hit := genesInTermHit hit_genes term_genes
  if regions_hitting_term = 0 ∧ genes_in_term_hit = 0 then none
  else
    let genome_fraction := (genome_fractions.lookup entry.1).getD 0
    let bt := binomial_test regions_hitting_term n_regions genome_fraction
    let ht := hypergeometric_test genes_in_term_hit hit_genes.card
      term_genes.card total_genes
    some { term_id := entry.1, term_name := entry.2.name,
           binom_p := bt.1, binom_fold_enrichment := bt.2,
           observed_regions := regions_hitting_term,
           expected_regions := (n_regions : ℚ) * genome_fraction,
           genome_fraction := genome_fraction,
           hyper_p := ht.1, hyper_fold_enrichment := ht.2,
           observed_genes := genes_in_term_hit,
           expected_genes := ((hit_genes.card * term_genes.card : ℕ) : ℚ) / (total_genes : ℚ),
           total_genes := term_genes.card }

/-- `LocalGreat._test_enrichment` of `pygreat/local/great.py` (lines
357-473).  The collection's `gene_sets` dict is an association list
`term_id -> GeneSet`; `region_genes` maps region keys to gene-hit sets;
`n_regions = len(regions)`, `total_genes = self._total_genes`.  Terms
with neither region nor gene hits are skipped; the surviving rows get
correction columns and ranks via `addCorrections`.  An empty row list
yields an empty table. -/
def test_enrichment (n_regions : ℕ) (region_genes : List (String × Finset String))
    (hit_genes : Finset String) (collection : List (String × GeneSet))
    (genome_fractions : List (String × ℚ)) (total_genes : ℕ) : List EnrichmentRow :=
  let results := collection.filterMap
    (buildRow n_regions region_genes hit_genes genome_fractions total_genes)
  if results.isEmpty then [] else addCorrections results

/-- The row filter of `LocalGreatResult.get_enrichment_tables` (lines
72-76): `observed_genes >= min_genes`, then `binom_fdr <= max_fdr`
(filtering an empty table is the identity, so the `df.empty` guard of
the source needs no separate case). -/
def filterTable (min_genes : ℕ) (max_fdr : ℚ) (df : List EnrichmentRow) :
    List EnrichmentRow :=
  (df.filter (fun r => min_genes ≤ r.observed_genes)).filter
    (fun r => r.binom_fdr ≤ max_fdr)

/-- `LocalGreatResult.get_enrichment_tables` of `pygreat/local/great.py`
(lines 46-80).  `enrichment_tables` is the ontology-keyed dict of result
tables; `ontologies = none` models passing `None`, and a passed empty
list is also falsy in `target = ontologies or list(keys)`.  Requested
ontologies missing from the dict are skipped by the `continue` at line
67-68. -/
def get_enrichment_tables (tables : List (String × List EnrichmentRow))
    (ontologies : Option (List String)) (min_genes : ℕ) (max_fdr : ℚ) :
    List (String × List EnrichmentRow) :=
  let target := match ontologies with
    | some l => if l.isEmpty then tables.map Prod.fst else l
    | none => tables.map Prod.fst
  target.filterMap (fun ont =>
    match tables.lookup ont with
    | none => none
    | some df => some (ont, filterTable min_genes max_fdr df))

/-- The region key `"{chrom}:{start}-{end}"` with `":{name}"` appended
when a name is present (`_associate_regions_to_genes`, lines
314-316). -/
def region_key (r : GenomicRegion) : String :=
  let base := r.chrom ++ ":" ++ toString r.start ++ "-" ++ toString r.«end»
  match r.name with
  | some n => base ++ ":" ++ n
  | none => base

/-- `LocalGreat._associate_regions_to_genes` of `pygreat/local/great.py`
(lines 294-331): for every region, scan the genes of its chromosome
(`self._genes_by_chrom`, built with `get_genes_by_chrom` after domain
computation) and collect the gene ids whose regulatory domain overlaps
the region half-open; the Python `set` of hits is modelled as the list
of hits in scan order (membership is what the claims quantify over). -/
def associate_regions_to_genes (ann : GeneAnnot) (regions : List GenomicRegion) :
    List (String × List String) :=
  regions.map (fun region =>
    let chrom_genes := get_genes_by_chrom ann region.chrom
    let genes_hit := (chrom_genes.filter
      (fun gene => region.start < gene.reg_end ∧ gene.reg_start < region.«end»)).map
      (fun gene => gene.gene_id)
    (region_key region, genes_hit))

/-- Gene 1 of the spec's concrete `basalPlusExt` scenario: TSS 10,000 on
the plus strand of `chr1`. -/
def scenarioGene1 : Gene :=
  { gene_id := "gene1", gene_name := "gene1", chrom := "chr1", tss := 10000, strand := "+" }

/-- Gene 2 of the spec's concrete `basalPlusExt` scenario: TSS 50,000 on
the minus strand of `chr1`. -/
def scenarioGene2 : Gene :=
  { gene_id := "gene2", gene_name := "gene2", chrom := "chr1", tss := 50000, strand := "-" }

/-- The two-gene annotation of the concrete scenario, chromosome size
1,000,000. -/
def scenarioAnn : GeneAnnot :=
  { genes := [scenarioGene1, scenarioGene2], chrom_sizes := [("chr1", 1000000)] }

/-- What `compute_regulatory_domains` actually produces on
`scenarioAnn` under `basalPlusExt` with upstream 5000, downstream 1000,
max extension 1,000,000. -/
def scenarioResult : GeneAnnot :=
  { genes := [{ scenarioGene1 with reg_start := 5000, reg_end := 49000 },
              { scenarioGene2 with reg_start := 49000, reg_end := 55000 }],
    chrom_sizes := [("chr1", 1000000)] }

/-- A minus-strand gene at TSS 1000 whose basal domain covers its
plus-strand neighbour's TSS. -/
def denseGeneA : Gene :=
  { gene_id := "a", gene_name := "a", chrom := "chr1", tss := 1000, strand := "-" }

/-- A plus-strand gene at TSS 1001, immediately downstream of
`denseGeneA`. -/
def denseGeneB : Gene :=
  { gene_id := "b", gene_name := "b", chrom := "chr1", tss := 1001, strand := "+" }

/-- Two genes 1 bp apart: a dense locus. -/
def denseAnn : GeneAnnot :=
  { genes := [denseGeneA, denseGeneB], chrom_sizes := [("chr1", 1000000)] }

/-- What `compute_regulatory_domains` actually produces on `denseAnn`
under `basalPlusExt` with the default parameters: gene `b` receives
`reg_start = 6000 > reg_end = 2001`. -/
def denseResult : GeneAnnot :=
  { genes := [{ denseGeneA with reg_start := 0, reg_end := 6000 },
              { denseGeneB with reg_start := 6000, reg_end := 2001 }],
    chrom_sizes := [("chr1", 1000000)] }

/-- A well-formed region used as witness input. -/
def okRegion : GenomicRegion := { chrom := "chr1", start := 0, «end» := 100 }

/-- A single-gene annotation used as witness input for the
unknown-rule error. -/
def oneGeneAnn : GeneAnnot :=
  { genes := [{ gene_id := "g", gene_name := "g", chrom := "chr1", tss := 500, strand := "+" }] }

/-- An annotated gene with computed domain `[0, 1000)` used as witness
input for the associator. -/
def assocGene : Gene :=
  { gene_id := "g", gene_name := "g", chrom := "chr1", tss := 0, strand := "+",
    reg_start := 0, reg_end := 1000 }

/-- One-gene store for the associator witness. -/
def assocAnn : GeneAnnot := { genes := [assocGene] }

/-- One region overlapping `assocGene`'s domain. -/
def assocRegion : GenomicRegion := { chrom := "chr1", start := 100, «end» := 200 }

/-- A result row with nonzero counts, used as witness input for the
table filter. -/
def sampleRow : EnrichmentRow :=
  { term_id := "T", binom_p := 1/2, hyper_p := 1/3, observed_genes := 2, binom_fdr := 1/2 }

/-- Term hit by the witness region set. -/
def termHit : String × GeneSet := ("T1", { id := "T1", name := "T1", genes := {"g1"} })

/-- Term with no region and no gene hits. -/
def termMiss : String × GeneSet := ("T2", { id := "T2", name := "T2", genes := {"g2"} })

/-- C1: under `basalPlusExt`, the code does not extend a domain to the
left of its own basal start, and does not extend past the basal domain
at chromosome ends: on the spec's concrete two-gene scenario
(TSS 10,000 `+` and 50,000 `-`, upstream 5000, downstream 1000, max
extension 1,000,000, chromosome size 1,000,000) it produces domains
`(5000, 49000)` and `(49000, 55000)`, not the claimed `(0, 49000)` and
`(11000, 1000000)`. -/
theorem basalPlusExt_scenario_divergence :
    compute_regulatory_domains scenarioAnn "basalPlusExt" 5000 1000 1000000
      = Except.ok scenarioResult
    ∧ scenarioResult.genes.map (fun g => (g.reg_start, g.reg_end))
      = [(5000, 49000), (49000, 55000)]
    ∧ [((5000 : Int), (49000 : Int)), (49000, 55000)]
      ≠ [(0, 49000), (11000, 1000000)] :=
  ⟨rfl, by decide, by decide⟩

/-- C2: the domain invariant `0 ≤ reg_start ≤ tss ≤ reg_end ≤
chrom_size` fails under `basalPlusExt` at a dense locus: with genes at
TSS 1000 (`-`) and 1001 (`+`) and default parameters, gene `b` gets
`reg_start = 6000`, exceeding both its TSS (1001) and its `reg_end`
(2001), a negative-width domain. -/
theorem domain_invariant_violated_at_dense_locus :
    compute_regulatory_domains denseAnn "basalPlusExt" 5000 1000 1000000
      = Except.ok denseResult
    ∧ ∃ g ∈ denseResult.genes, ¬(g.reg_start ≤ g.tss ∧ g.reg_start ≤ g.reg_end) :=
  ⟨rfl, by decide⟩

/-- C7: both statistical tests short-circuit to `(p, fold) = (1, 0)` on
degenerate inputs: `binomial_test` when `total_regions = 0` or
`genome_fraction = 0`, and `hypergeometric_test` when any of
`total_genes_in_regions`, `genes_in_term`, `total_genes_in_genome` is
zero; no error is raised (the functions are total). -/
theorem degenerate_stats_give_p_one_fold_zero (obs tot : ℕ) (gf : ℚ)
    (og tgr git tgg : ℕ) (h1 : tot = 0 ∨ gf = 0)
    (h2 : tgr = 0 ∨ git = 0 ∨ tgg = 0) :
    binomial_test obs tot gf = (1, 0) ∧ hypergeometric_test og tgr git tgg = (1, 0) := by
  constructor
  · simp only [binomial_test, if_pos h1]
  · simp only [hypergeometric_test, if_pos h2]

/-- Witness for C7 at `total_regions = 0` and
`total_genes_in_regions = 0`. -/
theorem degenerate_stats_give_p_one_fold_zero_witness :
    binomial_test 3 0 (1/2) = (1, 0) ∧ hypergeometric_test 5 0 2 10 = (1, 0) :=
  degenerate_stats_give_p_one_fold_zero 3 0 (1/2) 5 0 2 10 (Or.inl rfl) (Or.inl rfl)

/-- The region loop of `validate` errors exactly when some region has a
negative start or `end ≤ start`. -/
theorem validateLoop_error_iff (l : List GenomicRegion) :
    ∀ i, (∃ e, validateLoop i l = Except.error e)
      ↔ ∃ r ∈ l, r.start < 0 ∨ r.«end» ≤ r.start := by
  induction l with
  | nil => intro i; simp [validateLoop]
  | cons r rest ih =>
    intro i
    by_cases h1 : r.start < 0
    · simp only [validateLoop, if_pos h1]
      constructor
      · intro _; exact ⟨r, List.mem_cons_self r rest, Or.inl h1⟩
      · intro _; exact ⟨_, rfl⟩
    · by_cases h2 : r.«end» ≤ r.start
      · simp only [validateLoop, if_neg h1, if_pos h2]
        constructor
        · intro _; exact ⟨r, List.mem_cons_self r rest, Or.inr h2⟩
        · intro _; exact ⟨_, rfl⟩
      · simp only [validateLoop, if_neg h1, if_neg h2]
        rw [ih (i + 1)]
        constructor
        · rintro ⟨r', hr', hbad⟩; exact ⟨r', List.mem_cons_of_mem _ hr', hbad⟩
        · rintro ⟨r', hr', hbad⟩
          rcases List.mem_cons.mp hr' with h | h
          · subst h; rcases hbad with h | h
            · exact absurd h h1
            · exact absurd h h2
          · exact ⟨r', h, hbad⟩

/-- C8: `GenomicRegions.validate` raises `InvalidRegionsError` iff the
region list is empty, has more than `MAX_REGIONS = 500,000` entries, or
contains a region with `start < 0` or `end ≤ start`; otherwise it
returns normally with the region list unchanged. -/
theorem validate_error_iff (regions : List GenomicRegion) :
    ((∃ e, validate regions = Except.error e)
      ↔ (regions = [] ∨ MAX_REGIONS < regions.length
          ∨ ∃ r ∈ regions, r.start < 0 ∨ r.«end» ≤ r.start))
    ∧ (¬(regions = [] ∨ MAX_REGIONS < regions.length
          ∨ ∃ r ∈ regions, r.start < 0 ∨ r.«end» ≤ r.start)
        → validate regions = Except.ok regions) := by
  by_cases h0 : regions.length = 0
  · have hnil : regions = [] := List.length_eq_zero.mp h0
    subst hnil
    refine ⟨?_, fun h => absurd (Or.inl rfl) h⟩
    simp [validate]
  · by_cases h1 : MAX_REGIONS < regions.length
    · refine ⟨?_, fun h => absurd (Or.inr (Or.inl h1)) h⟩
      simp only [validate, if_neg h0, if_pos h1]
      constructor
      · intro _; exact Or.inr (Or.inl h1)
      · intro _; exact ⟨_, rfl⟩
    · cases hL : validateLoop 0 regions with
      | error e =>
        have hbad : ∃ r ∈ regions, r.start < 0 ∨ r.«end» ≤ r.start :=
          (validateLoop_error_iff regions 0).mp ⟨e, hL⟩
        refine ⟨?_, fun h => absurd (Or.inr (Or.inr hbad)) h⟩
        simp only [validate, if_neg h0, if_neg h1, hL]
        constructor
        · intro _; exact Or.inr (Or.inr hbad)
        · intro _; exact ⟨e, rfl⟩
      | ok u =>
        cases u
        have hok : validate regions = Except.ok regions := by
          simp only [validate, if_neg h0, if_neg h1, hL]
        constructor
        · rw [hok]
          constructor
          · rintro ⟨e, he⟩; exact absurd he (by simp)
          · rintro (h | h | h)
            · exact absurd (by simp [h]) h0
            · exact absurd h h1
            · rcases (validateLoop_error_iff regions 0).mpr h with ⟨e, he⟩
              rw [hL] at he; exact absurd he (by simp)
        · intro _; exact hok

/-- Witness for C8: a single well-formed region passes validation
unchanged. -/
theorem validate_error_iff_witness : validate [okRegion] = Except.ok [okRegion] :=
  (validate_error_iff [okRegion]).2 (by decide)

/-- Counterexample to C6: the rule check of
`compute_regulatory_domains` sits inside the per-chromosome loop, so on
an annotation store with no genes the call with the unrecognized rule
`"bogus"` returns normally instead of raising. -/
theorem unknown_rule_empty_store_returns :
    ("bogus" ≠ "basalPlusExt" ∧ "bogus" ≠ "twoClosest" ∧ "bogus" ≠ "oneClosest")
    ∧ compute_regulatory_domains {} "bogus" 5000 1000 1000000 = Except.ok {} :=
  ⟨by decide, rfl⟩

/-- C6 (amended): for every annotation store containing at least one
gene, `compute_regulatory_domains` with a rule that is none of
`basalPlusExt`, `twoClosest`, `oneClosest` raises the
unknown-association-rule error at the first chromosome and never
returns normally. -/
theorem unknown_rule_raises (ann : GeneAnnot) (rule : String)
    (upstream downstream max_extension : Int)
    (h1 : rule ≠ "basalPlusExt") (h2 : rule ≠ "twoClosest")
    (h3 : rule ≠ "oneClosest") (h4 : ann.genes ≠ []) :
    compute_regulatory_domains ann rule upstream downstream max_extension
      = Except.error ("Unknown rule: " ++ rule) := by
  obtain ⟨g, hg⟩ := List.exists_mem_of_ne_nil ann.genes h4
  have hchrom : g.chrom ∈ get_all_chromosomes ann := by
    rw [get_all_chromosomes, (List.perm_insertionSort _ _).mem_iff, List.mem_dedup]
    exact List.mem_map_of_mem (fun g => g.chrom) hg
  rcases hlist : get_all_chromosomes ann with _ | ⟨c, rest⟩
  · rw [hlist] at hchrom; exact absurd hchrom (List.not_mem_nil _)
  · have hloop : domainsLoop ann rule upstream downstream max_extension (c :: rest)
        = Except.error ("Unknown rule: " ++ rule) := by
      simp only [domainsLoop, if_neg h1, if_neg h2, if_neg h3]
    simp only [compute_regulatory_domains, hlist, hloop]

/-- Witness for C6 (amended): a one-gene store with rule `"bogus"`
raises. -/
theorem unknown_rule_raises_witness :
    compute_regulatory_domains oneGeneAnn "bogus" 5000 1000 1000000
      = Except.error ("Unknown rule: " ++ "bogus") :=
  unknown_rule_raises oneGeneAnn "bogus" 5000 1000 1000000
    (by decide) (by decide) (by decide) (by decide)

/-- Counterexample to C5: requesting the ontology `"GO"` from a result
set that does not contain it yields a mapping with no entry for `"GO"`
at all — the requested-but-absent ontology is omitted (the `continue`
at `great.py` line 67-68), not mapped to an empty table as claimed. -/
theorem absent_ontology_omitted :
    get_enrichment_tables [] (some ["GO"]) 1 1 = []
    ∧ (get_enrichment_tables [] (some ["GO"]) 1 1).lookup "GO" = none :=
  ⟨rfl, rfl⟩

/-- Looking up a key the source table does not have finds nothing in
the filtered output either: every produced entry keeps its own
ontology key. -/
theorem lookup_filtered_tables_of_absent
    (tables : List (String × List EnrichmentRow)) (mg : ℕ) (mf : ℚ)
    (o : String) (h : tables.lookup o = none) (target : List String) :
    (target.filterMap (fun ont =>
      match tables.lookup ont with
      | none => none
      | some df => some (ont, filterTable mg mf df))).lookup o = none := by
  induction target with
  | nil => rfl
  | cons t ts ih =>
    rw [List.filterMap_cons]
    cases htl : tables.lookup t with
    | none => exact ih
    | some df =>
      have hto : (o == t) = false := by
        by_cases hq : t = o
        · subst hq; rw [htl] at h; exact absurd h (by simp)
        · exact beq_false_of_ne (fun hh => hq hh.symm)
      simp only [List.lookup, hto]
      exact ih

/-- Looking up a requested key the source table does have returns its
filtered rows. -/
theorem lookup_filtered_tables_of_present
    (tables : List (String × List EnrichmentRow)) (mg : ℕ) (mf : ℚ)
    (o : String) (df : List EnrichmentRow) (h : tables.lookup o = some df) :
    ∀ target : List String, o ∈ target →
    (target.filterMap (fun ont =>
      match tables.lookup ont with
      | none => none
      | some df => some (ont, filterTable mg mf df))).lookup o
      = some (filterTable mg mf df) := by
  intro target
  induction target with
  | nil => intro ho; exact absurd ho (List.not_mem_nil o)
  | cons t ts ih =>
    intro ho
    rw [List.filterMap_cons]
    by_cases hto : t = o
    · subst hto
      rw [h]
      simp [List.lookup]
    · have hmem : o ∈ ts := by
        rcases List.mem_cons.mp ho with hq | hq
        · exact absurd hq.symm hto
        · exact hq
      cases htl : tables.lookup t with
      | none => exact ih hmem
      | some df' =>
        simp only [List.lookup, beq_false_of_ne (fun hh => hto hh.symm)]
        exact ih hmem

/-- C5 (amended): for a nonempty requested ontology list, every
requested ontology present in the result set maps to exactly the rows
with `observed_genes ≥ min_genes` and `binom_fdr ≤ max_fdr`, while a
requested-but-absent ontology is omitted from the returned mapping (no
error is raised and no empty table is produced for it). -/
theorem get_enrichment_tables_lookup (tables : List (String × List EnrichmentRow))
    (req : List String) (mg : ℕ) (mf : ℚ) (o : String)
    (ho : o ∈ req) (hne : req ≠ []) :
    (tables.lookup o = none →
      (get_enrichment_tables tables (some req) mg mf).lookup o = none)
    ∧ ∀ df, tables.lookup o = some df →
      (get_enrichment_tables tables (some req) mg mf).lookup o
        = some (filterTable mg mf df) := by
  have htarget : (if req.isEmpty then tables.map Prod.fst else req) = req := by
    cases req with
    | nil => exact absurd rfl hne
    | cons t ts => rfl
  constructor
  · intro h
    simp only [get_enrichment_tables, htarget]
    exact lookup_filtered_tables_of_absent tables mg mf o h req
  · intro df h
    simp only [get_enrichment_tables, htarget]
    exact lookup_filtered_tables_of_present tables mg mf o df h req ho

/-- Witness for C5 (amended): the present requested ontology `"GO"` of
a one-table result set maps to its filtered rows. -/
theorem get_enrichment_tables_lookup_witness :
    (get_enrichment_tables [("GO", [sampleRow])] (some ["GO", "X"]) 1 1).lookup "GO"
      = some (filterTable 1 1 [sampleRow]) :=
  (get_enrichment_tables_lookup [("GO", [sampleRow])] ["GO", "X"] 1 1 "GO"
    (by decide) (by decide)).2 [sampleRow] rfl

/-- Membership in a chromosome's sorted gene list. -/
theorem mem_get_genes_by_chrom (ann : GeneAnnot) (chrom : String) (g : Gene) :
    g ∈ get_genes_by_chrom ann chrom ↔ g ∈ ann.genes ∧ g.chrom = chrom := by
  rw [get_genes_by_chrom, (List.perm_insertionSort _ _).mem_iff, List.mem_filter]
  simp

/-- C4: the associator maps the `i`-th region to its region key paired
with a hit set that contains a gene's id iff the gene lies on the
region's chromosome and the half-open intervals overlap
(`region.start < gene.reg_end` and `gene.reg_start < region.end`).
Gene ids are unique in the store (it models a `gene_id`-keyed dict). -/
theorem associator_hit_iff (ann : GeneAnnot) (regions : List GenomicRegion)
    (hids : (ann.genes.map (fun g => g.gene_id)).Nodup)
    (i : ℕ) (hi : i < regions.length) (g : Gene) (hg : g ∈ ann.genes) :
    ((associate_regions_to_genes ann regions).getD i ("", [])).1
      = region_key (regions.getD i default)
    ∧ (g.gene_id ∈ ((associate_regions_to_genes ann regions).getD i ("", [])).2
        ↔ g.chrom = (regions.getD i default).chrom
          ∧ (regions.getD i default).start < g.reg_end
          ∧ g.reg_start < (regions.getD i default).«end») := by
  have hlen : i < (associate_regions_to_genes ann regions).length := by
    simp only [associate_regions_to_genes, List.length_map]; exact hi
  have hri : regions.getD i default = regions[i] := List.getD_eq_getElem _ _ hi
  have hgetD : (associate_regions_to_genes ann regions).getD i ("", [])
      = (region_key regions[i],
         ((get_genes_by_chrom ann regions[i].chrom).filter
           (fun gene => regions[i].start < gene.reg_end
             ∧ gene.reg_start < regions[i].«end»)).map (fun gene => gene.gene_id)) := by
    rw [List.getD_eq_getElem _ _ hlen]
    simp only [associate_regions_to_genes, List.getElem_map]
  rw [hgetD, hri]
  refine ⟨rfl, ?_⟩
  constructor
  · intro hmem
    obtain ⟨a, ha, haid⟩ := List.mem_map.mp hmem
    have hafil := List.mem_filter.mp ha
    have hachrom := (mem_get_genes_by_chrom ann _ a).mp hafil.1
    have hag : a = g :=
      List.inj_on_of_nodup_map hids hachrom.1 hg haid
    have hcond := of_decide_eq_true hafil.2
    rw [hag] at hcond hachrom
    exact ⟨hachrom.2, hcond.1, hcond.2⟩
  · rintro ⟨hchrom, hov1, hov2⟩
    refine List.mem_map.mpr ⟨g, List.mem_filter.mpr ⟨?_, ?_⟩, rfl⟩
    · exact (mem_get_genes_by_chrom ann _ g).mpr ⟨hg, hchrom⟩
    · exact decide_eq_true ⟨hov1, hov2⟩

/-- Witness for C4: a one-gene, one-region instance. -/
theorem associator_hit_iff_witness :
    ((associate_regions_to_genes assocAnn [assocRegion]).getD 0 ("", [])).1
      = region_key (([assocRegion] : List GenomicRegion).getD 0 default)
    ∧ (assocGene.gene_id ∈ ((associate_regions_to_genes assocAnn [assocRegion]).getD 0 ("", [])).2
        ↔ assocGene.chrom = (([assocRegion] : List GenomicRegion).getD 0 default).chrom
          ∧ (([assocRegion] : List GenomicRegion).getD 0 default).start < assocGene.reg_end
          ∧ assocGene.reg_start < (([assocRegion] : List GenomicRegion).getD 0 default).«end») :=
  associator_hit_iff assocAnn [assocRegion] (by decide) 0 (by decide) assocGene (by decide)

/-- A line whose start field, end field, or present fifth field fails
to parse yields no region. -/
theorem parseBedRegion_eq_none (fields : List (List Char))
    (hbad : pyInt? (fields.getD 1 []) = none ∨ pyInt? (fields.getD 2 []) = none
      ∨ (4 < fields.length ∧ pyFloat? (fields.getD 4 []) = none)) :
    parseBedRegion fields = none := by
  rcases hbad with h | h | ⟨hlen, h⟩
  · simp only [parseBedRegion, h]
  · cases h1 : pyInt? (fields.getD 1 []) with
    | none => simp only [parseBedRegion, h1]
    | some s => simp only [parseBedRegion, h1, h]
  · cases h1 : pyInt? (fields.getD 1 []) with
    | none => simp only [parseBedRegion, h1]
    | some s =>
      cases h2 : pyInt? (fields.getD 2 []) with
      | none => simp only [parseBedRegion, h1, h2]
      | some e =>
        simp only [parseBedRegion, h1, h2, if_pos hlen, h]
        rfl

/-- C10: in the BED loader, a non-comment line that still has fewer
than three fields after tab- and whitespace-splitting is silently
skipped (the load of the remaining lines is unchanged), whereas a
non-comment line with at least three fields whose start or end field is
not an integer, or whose fifth field is present but not a valid float,
makes `from_bed` raise `InvalidRegionsError` for the whole input — no
partial region set is returned. -/
theorem from_bed_skip_or_abort (line : String) (rest : List String)
    (hskip : bedSkipLine (pyStrip line.data) = false) :
    ((bedFields (pyStrip line.data)).length < 3 →
      from_bed (line :: rest) = from_bed rest)
    ∧ (3 ≤ (bedFields (pyStrip line.data)).length →
      (pyInt? ((bedFields (pyStrip line.data)).getD 1 []) = none
        ∨ pyInt? ((bedFields (pyStrip line.data)).getD 2 []) = none
        ∨ (4 < (bedFields (pyStrip line.data)).length
            ∧ pyFloat? ((bedFields (pyStrip line.data)).getD 4 []) = none)) →
      ∃ e, from_bed (line :: rest) = Except.error e) := by
  constructor
  · intro hlt
    have hloop : from_bed_loop (line :: rest) = from_bed_loop rest := by
      simp only [from_bed_loop, hskip, Bool.false_eq_true, if_false, if_pos hlt]
    simp only [from_bed, hloop]
  · intro hge hbad
    have hparse := parseBedRegion_eq_none _ hbad
    have hloop : from_bed_loop (line :: rest)
        = Except.error ("Invalid BED format at line: " ++ String.mk (pyStrip line.data)) := by
      simp only [from_bed_loop, hskip, Bool.false_eq_true, if_false,
        if_neg (Nat.not_lt.mpr hge), hparse]
    refine ⟨"Invalid BED format at line: " ++ String.mk (pyStrip line.data), ?_⟩
    simp only [from_bed, hloop]

/-- Witness for C10: the line `"chr1<TAB>foo<TAB>200"` has three fields
but a non-integer start field, so the load of just that line aborts
with an error. -/
theorem from_bed_skip_or_abort_witness :
    ∃ e, from_bed ["chr1\tfoo\t200"] = Except.error e :=
  (from_bed_skip_or_abort "chr1\tfoo\t200" [] (by decide)).2
    (by decide) (Or.inl (by decide))

/-- `bhRanked` preserves the length of the p-value list. -/
theorem bhRanked_length (n : ℕ) (l : List ℚ) : ∀ j, (bhRanked n j l).length = l.length := by
  induction l with
  | nil => intro j; rfl
  | cons p rest ih =>
    intro j
    have h0 := ih (j + 1)
    cases htail : bhRanked n (j + 1) rest with
    | nil =>
      rw [htail] at h0
      simp only [bhRanked, htail]
      simp [← h0]
    | cons t ts =>
      rw [htail] at h0
      simp only [bhRanked, htail]
      simp [h0]

/-- Elementwise bounds for the sorted-order adjusted values: with
`j + l.length ≤ n`, p-values in `[0, 1]` and `l` sorted ascending, the
`k`-th adjusted value lies between the `k`-th p-value and 1. -/
theorem bhRanked_getD (n : ℕ) (l : List ℚ) :
    ∀ j, l.Pairwise (· ≤ ·) → (∀ p ∈ l, 0 ≤ p ∧ p ≤ 1) → j + l.length ≤ n →
    ∀ k, k < l.length →
      l.getD k 0 ≤ (bhRanked n j l).getD k 1 ∧ (bhRanked n j l).getD k 1 ≤ 1 := by
  induction l with
  | nil => intro j _ _ _ k hk; exact absurd hk (by simp)
  | cons p rest ih =>
    intro j hpw hbd hn k hk
    have hp := hbd p (List.mem_cons_self p rest)
    have hhead := (List.pairwise_cons.mp hpw).1
    have hrestpw := (List.pairwise_cons.mp hpw).2
    have hrestbd : ∀ q ∈ rest, 0 ≤ q ∧ q ≤ 1 :=
      fun q hq => hbd q (List.mem_cons_of_mem _ hq)
    have hlcons : (p :: rest).length = rest.length + 1 := rfl
    have hjn : (j : ℚ) + 1 ≤ (n : ℚ) := by
      have hj1 : j + 1 ≤ n := by
        rw [hlcons] at hn; omega
      exact_mod_cast hj1
    have hjpos : (0 : ℚ) < (j : ℚ) + 1 := by positivity
    have ha_ge : p ≤ p * (n : ℚ) / ((j : ℚ) + 1) := by
      rw [le_div_iff₀ hjpos]
      exact mul_le_mul_of_nonneg_left hjn hp.1
    have ha_ge' : p ≤ min (p * (n : ℚ) / ((j : ℚ) + 1)) 1 := le_min ha_ge hp.2
    have ha_le : min (p * (n : ℚ) / ((j : ℚ) + 1)) 1 ≤ 1 := min_le_right _ _
    cases k with
    | zero =>
      cases htail : bhRanked n (j + 1) rest with
      | nil =>
        simp only [bhRanked, htail, List.getD_cons_zero]
        exact ⟨ha_ge', ha_le⟩
      | cons t ts =>
        have hlen := bhRanked_length n rest (j + 1)
        rw [htail] at hlen
        have hrestpos : 0 < rest.length := by
          rw [← hlen]; simp
        have hr0mem : rest.getD 0 0 ∈ rest := by
          rw [List.getD_eq_getElem _ _ hrestpos]; exact List.getElem_mem _
        have hpr0 : p ≤ rest.getD 0 0 := hhead _ hr0mem
        have iht := ih (j + 1) hrestpw hrestbd (by rw [hlcons] at hn; omega) 0 hrestpos
        rw [htail] at iht
        simp only [List.getD_cons_zero] at iht
        simp only [bhRanked, htail, List.getD_cons_zero]
        exact ⟨le_min ha_ge' (le_trans hpr0 iht.1),
               le_trans (min_le_left _ _) ha_le⟩
    | succ k' =>
      have hk' : k' < rest.length := by
        rw [hlcons] at hk; omega
      have iht := ih (j + 1) hrestpw hrestbd (by rw [hlcons] at hn; omega) k' hk'
      cases htail : bhRanked n (j + 1) rest with
      | nil =>
        have hlen := bhRanked_length n rest (j + 1)
        rw [htail] at hlen
        simp only [List.length_nil] at hlen
        omega
      | cons t ts =>
        rw [htail] at iht
        simp only [bhRanked, htail, List.getD_cons_succ]
        exact iht

/-- Elementwise bounds for `_benjamini_hochberg`: with raw p-values in
`[0, 1]`, every adjusted value is at least the raw p-value at the same
position and at most 1. -/
theorem benjamini_hochberg_getD (ps : List ℚ)
    (hb : ∀ p ∈ ps, 0 ≤ p ∧ p ≤ 1) (i : ℕ) (hi : i < ps.length) :
    ps.getD i 0 ≤ (benjamini_hochberg ps).getD i 1
    ∧ (benjamini_hochberg ps).getD i 1 ≤ 1 := by
  have hperm : (List.insertionSort pairLe ps.enum).Perm ps.enum :=
    List.perm_insertionSort _ _
  have hsplen : (List.insertionSort pairLe ps.enum).length = ps.length := by
    rw [hperm.length_eq, List.enum_length]
  have hqlen : ((List.insertionSort pairLe ps.enum).map (fun pr => pr.2)).length
      = ps.length := by rw [List.length_map, hsplen]
  have hadjlen : (bhRanked ps.length 0
      ((List.insertionSort pairLe ps.enum).map (fun pr => pr.2))).length = ps.length := by
    rw [bhRanked_length, hqlen]
  have hifst : i ∈ (List.insertionSort pairLe ps.enum).map Prod.fst := by
    rw [(hperm.map Prod.fst).mem_iff, List.enum_map_fst]
    exact List.mem_range.mpr hi
  obtain ⟨pr0, hpr0mem, hpr0fst⟩ := List.mem_map.mp hifst
  obtain ⟨k, hk, hkeq⟩ := List.mem_iff_getElem.mp hpr0mem
  have hziplen : ((List.insertionSort pairLe ps.enum).zip
      (bhRanked ps.length 0
        ((List.insertionSort pairLe ps.enum).map (fun pr => pr.2)))).length
      = ps.length := by
    rw [List.length_zip, hsplen, hadjlen, Nat.min_self]
  have hfind_ex : ∃ x ∈ (List.insertionSort pairLe ps.enum).zip
      (bhRanked ps.length 0
        ((List.insertionSort pairLe ps.enum).map (fun pr => pr.2))),
      (x.1.1 == i) = true := by
    have hkz : k < ((List.insertionSort pairLe ps.enum).zip
        (bhRanked ps.length 0
          ((List.insertionSort pairLe ps.enum).map (fun pr => pr.2)))).length := by
      rw [hziplen, ← hsplen]; exact hk
    refine ⟨_, List.getElem_mem hkz, ?_⟩
    rw [List.getElem_zip]
    simp only [hkeq, hpr0fst, beq_self_eq_true]
  obtain ⟨prv, hprv⟩ := Option.isSome_iff_exists.mp (List.find?_isSome.mpr hfind_ex)
  have hprv_i : prv.1.1 = i := by
    have := List.find?_some hprv
    simpa using this
  obtain ⟨k2, hk2, hk2eq⟩ := List.mem_iff_getElem.mp (List.mem_of_find?_eq_some hprv)
  have hk2sp : k2 < (List.insertionSort pairLe ps.enum).length := by
    rw [hsplen, ← hziplen]; exact hk2
  have hk2adj : k2 < (bhRanked ps.length 0
      ((List.insertionSort pairLe ps.enum).map (fun pr => pr.2))).length := by
    rw [hadjlen, ← hziplen]; exact hk2
  have hzipk2 : prv = ((List.insertionSort pairLe ps.enum)[k2],
      (bhRanked ps.length 0
        ((List.insertionSort pairLe ps.enum).map (fun pr => pr.2)))[k2]) := by
    rw [← hk2eq, List.getElem_zip]
  have hspmem : (List.insertionSort pairLe ps.enum)[k2] ∈ ps.enum :=
    hperm.subset (List.getElem_mem hk2sp)
  obtain ⟨m, hm, hmeq⟩ := List.mem_iff_getElem.mp hspmem
  rw [List.getElem_enum] at hmeq
  have hmi : m = i := by
    have h1 : (List.insertionSort pairLe ps.enum)[k2].1 = m := by
      rw [← hmeq]
    have h2 : prv.1 = (List.insertionSort pairLe ps.enum)[k2] := by
      rw [hzipk2]
    rw [← hprv_i, h2, h1]
  have hmlt : m < ps.length := by
    rw [List.enum_length] at hm; exact hm
  have hsnd : (List.insertionSort pairLe ps.enum)[k2].2 = ps.getD i 0 := by
    have h1 : (List.insertionSort pairLe ps.enum)[k2].2 = ps[m] := by
      rw [← hmeq]
    rw [h1]
    subst hmi
    exact (List.getD_eq_getElem _ _ hmlt).symm
  have hout : (benjamini_hochberg ps).getD i 1 = prv.2 := by
    have hrange : i < ((List.range ps.length).map (fun i' =>
        match ((List.insertionSort pairLe ps.enum).zip
          (bhRanked ps.length 0
            ((List.insertionSort pairLe ps.enum).map (fun pr => pr.2)))).find?
            (fun pr => pr.1.1 == i') with
        | some pr => pr.2
        | none => 1)).length := by
      rw [List.length_map, List.length_range]; exact hi
    have hbh : benjamini_hochberg ps = (List.range ps.length).map (fun i' =>
        match ((List.insertionSort pairLe ps.enum).zip
          (bhRanked ps.length 0
            ((List.insertionSort pairLe ps.enum).map (fun pr => pr.2)))).find?
            (fun pr => pr.1.1 == i') with
        | some pr => pr.2
        | none => 1) := rfl
    rw [hbh, List.getD_eq_getElem _ _ hrange, List.getElem_map, List.getElem_range, hprv]
  have hsorted : List.Pairwise (fun a b : ℚ => a ≤ b)
      ((List.insertionSort pairLe ps.enum).map (fun pr => pr.2)) := by
    have hs := List.sorted_insertionSort pairLe ps.enum
    exact List.Pairwise.map _ (fun a b h => h) hs
  have hqbd : ∀ q ∈ (List.insertionSort pairLe ps.enum).map (fun pr => pr.2),
      0 ≤ q ∧ q ≤ 1 := by
    intro q hq
    obtain ⟨pr, hprm, hpreq⟩ := List.mem_map.mp hq
    have : pr.2 ∈ ps := by
      rw [← List.enum_map_snd ps]
      exact List.mem_map_of_mem Prod.snd (hperm.subset hprm)
    rw [← hpreq]
    exact hb _ this
  have hk2q : k2 < ((List.insertionSort pairLe ps.enum).map (fun pr => pr.2)).length := by
    rw [hqlen, ← hziplen]; exact hk2
  have hmain := bhRanked_getD ps.length
    ((List.insertionSort pairLe ps.enum).map (fun pr => pr.2)) 0 hsorted hqbd
    (by rw [hqlen]; omega) k2 hk2q
  have hqval : ((List.insertionSort pairLe ps.enum).map (fun pr => pr.2)).getD k2 0
      = ps.getD i 0 := by
    rw [List.getD_eq_getElem _ _ hk2q, List.getElem_map, hsnd]
  have hadjval : (bhRanked ps.length 0
      ((List.insertionSort pairLe ps.enum).map (fun pr => pr.2))).getD k2 1 = prv.2 := by
    rw [List.getD_eq_getElem _ _ hk2adj, hzipk2]
  rw [hout, ← hadjval, ← hqval]
  exact hmain

/-- Every row of `addCorrections rows` is, up to the rank fields, the
`i`-th input row with FDR columns `getD i` of the BH vectors and
Bonferroni columns `min(p * n, 1)`. -/
theorem mem_addCorrections (rows : List EnrichmentRow) (r : EnrichmentRow)
    (hr : r ∈ addCorrections rows) :
    ∃ i, ∃ hi : i < rows.length,
      r.term_id = rows[i].term_id
      ∧ r.binom_p = rows[i].binom_p
      ∧ r.hyper_p = rows[i].hyper_p
      ∧ r.binom_fdr = (benjamini_hochberg (rows.map (fun x => x.binom_p))).getD i 1
      ∧ r.hyper_fdr = (benjamini_hochberg (rows.map (fun x => x.hyper_p))).getD i 1
      ∧ r.binom_bonferroni = min (rows[i].binom_p * (rows.length : ℚ)) 1
      ∧ r.hyper_bonferroni = min (rows[i].hyper_p * (rows.length : ℚ)) 1 := by
  simp only [addCorrections, List.mem_map, List.mem_range] at hr
  obtain ⟨j, hj, himg⟩ := hr
  have hjlt : j < (List.insertionSort (fun a b : EnrichmentRow => a.binom_p ≤ b.binom_p)
      ((List.range rows.length).map (fun i =>
        { rows.getD i default with
          binom_fdr := (benjamini_hochberg (rows.map (fun r => r.binom_p))).getD i 1,
          hyper_fdr := (benjamini_hochberg (rows.map (fun r => r.hyper_p))).getD i 1,
          binom_bonferroni := min ((rows.getD i default).binom_p * (rows.length : ℚ)) 1,
          hyper_bonferroni := min ((rows.getD i default).hyper_p * (rows.length : ℚ)) 1 }))).length := hj
  have hmemsorted : (List.insertionSort (fun a b : EnrichmentRow => a.binom_p ≤ b.binom_p)
      ((List.range rows.length).map (fun i =>
        { rows.getD i default with
          binom_fdr := (benjamini_hochberg (rows.map (fun r => r.binom_p))).getD i 1,
          hyper_fdr := (benjamini_hochberg (rows.map (fun r => r.hyper_p))).getD i 1,
          binom_bonferroni := min ((rows.getD i default).binom_p * (rows.length : ℚ)) 1,
          hyper_bonferroni := min ((rows.getD i default).hyper_p * (rows.length : ℚ)) 1 }))).getD j default
      ∈ (List.range rows.length).map (fun i =>
        { rows.getD i default with
          binom_fdr := (benjamini_hochberg (rows.map (fun r => r.binom_p))).getD i 1,
          hyper_fdr := (benjamini_hochberg (rows.map (fun r => r.hyper_p))).getD i 1,
          binom_bonferroni := min ((rows.getD i default).binom_p * (rows.length : ℚ)) 1,
          hyper_bonferroni := min ((rows.getD i default).hyper_p * (rows.length : ℚ)) 1 }) := by
    apply (List.perm_insertionSort (fun a b : EnrichmentRow => a.binom_p ≤ b.binom_p) _).subset
    rw [List.getD_eq_getElem _ _ hjlt]
    exact List.getElem_mem hjlt
  obtain ⟨i, hi, hgeq⟩ := by
    simpa only [List.mem_map, List.mem_range] using hmemsorted
  refine ⟨i, hi, ?_⟩
  rw [← himg, ← hgeq, List.getD_eq_getElem rows default hi]
  exact ⟨rfl, rfl, rfl, rfl, rfl, rfl, rfl⟩

/-- Conversely, every input row's `term_id` appears among the rows of
`addCorrections rows`. -/
theorem term_id_mem_addCorrections (rows : List EnrichmentRow) (i : ℕ)
    (hi : i < rows.length) :
    ∃ r ∈ addCorrections rows, r.term_id = rows[i].term_id := by
  have hmemw : ({ rows.getD i default with
      binom_fdr := (benjamini_hochberg (rows.map (fun r => r.binom_p))).getD i 1,
      hyper_fdr := (benjamini_hochberg (rows.map (fun r => r.hyper_p))).getD i 1,
      binom_bonferroni := min ((rows.getD i default).binom_p * (rows.length : ℚ)) 1,
      hyper_bonferroni := min ((rows.getD i default).hyper_p * (rows.length : ℚ)) 1 }
      : EnrichmentRow)
      ∈ (List.range rows.length).map (fun i =>
        { rows.getD i default with
          binom_fdr := (benjamini_hochberg (rows.map (fun r => r.binom_p))).getD i 1,
          hyper_fdr := (benjamini_hochberg (rows.map (fun r => r.hyper_p))).getD i 1,
          binom_bonferroni := min ((rows.getD i default).binom_p * (rows.length : ℚ)) 1,
          hyper_bonferroni := min ((rows.getD i default).hyper_p * (rows.length : ℚ)) 1 }) :=
    List.mem_map_of_mem _ (List.mem_range.mpr hi)
  have hmemsorted : ({ rows.getD i default with
      binom_fdr := (benjamini_hochberg (rows.map (fun r => r.binom_p))).getD i 1,
      hyper_fdr := (benjamini_hochberg (rows.map (fun r => r.hyper_p))).getD i 1,
      binom_bonferroni := min ((rows.getD i default).binom_p * (rows.length : ℚ)) 1,
      hyper_bonferroni := min ((rows.getD i default).hyper_p * (rows.length : ℚ)) 1 }
      : EnrichmentRow)
      ∈ List.insertionSort (fun a b : EnrichmentRow => a.binom_p ≤ b.binom_p)
        ((List.range rows.length).map (fun i =>
          { rows.getD i default with
            binom_fdr := (benjamini_hochberg (rows.map (fun r => r.binom_p))).getD i 1,
            hyper_fdr := (benjamini_hochberg (rows.map (fun r => r.hyper_p))).getD i 1,
            binom_bonferroni := min ((rows.getD i default).binom_p * (rows.length : ℚ)) 1,
            hyper_bonferroni := min ((rows.getD i default).hyper_p * (rows.length : ℚ)) 1 })) :=
    ((List.perm_insertionSort (fun a b : EnrichmentRow => a.binom_p ≤ b.binom_p) _).mem_iff).mpr
      hmemw
  obtain ⟨j, hj, hjeq⟩ := List.mem_iff_getElem.mp hmemsorted
  have hrowmem : ({ (List.insertionSort (fun a b : EnrichmentRow => a.binom_p ≤ b.binom_p)
        ((List.range rows.length).map (fun i =>
          { rows.getD i default with
            binom_fdr := (benjamini_hochberg (rows.map (fun r => r.binom_p))).getD i 1,
            hyper_fdr := (benjamini_hochberg (rows.map (fun r => r.hyper_p))).getD i 1,
            binom_bonferroni := min ((rows.getD i default).binom_p * (rows.length : ℚ)) 1,
            hyper_bonferroni := min ((rows.getD i default).hyper_p * (rows.length : ℚ)) 1 }))).getD j default with
      binom_rank := j + 1,
      hyper_rank := pandasAvgRankInt
        ((List.insertionSort (fun a b : EnrichmentRow => a.binom_p ≤ b.binom_p)
          ((List.range rows.length).map (fun i =>
            { rows.getD i default with
              binom_fdr := (benjamini_hochberg (rows.map (fun r => r.binom_p))).getD i 1,
              hyper_fdr := (benjamini_hochberg (rows.map (fun r => r.hyper_p))).getD i 1,
              binom_bonferroni := min ((rows.getD i default).binom_p * (rows.length : ℚ)) 1,
              hyper_bonferroni := min ((rows.getD i default).hyper_p * (rows.length : ℚ)) 1 }))).map
          (fun r => r.hyper_p))
        (((List.insertionSort (fun a b : EnrichmentRow => a.binom_p ≤ b.binom_p)
          ((List.range rows.length).map (fun i =>
            { rows.getD i default with
              binom_fdr := (benjamini_hochberg (rows.map (fun r => r.binom_p))).getD i 1,
              hyper_fdr := (benjamini_hochberg (rows.map (fun r => r.hyper_p))).getD i 1,
              binom_bonferroni := min ((rows.getD i default).binom_p * (rows.length : ℚ)) 1,
              hyper_bonferroni := min ((rows.getD i default).hyper_p * (rows.length : ℚ)) 1 }))).getD j default).hyper_p) }
      : EnrichmentRow) ∈ addCorrections rows := by
    simp only [addCorrections, List.mem_map, List.mem_range]
    exact ⟨j, hj, rfl⟩
  refine ⟨_, hrowmem, ?_⟩
  show ((List.insertionSort (fun a b : EnrichmentRow => a.binom_p ≤ b.binom_p)
      ((List.range rows.length).map (fun i =>
        { rows.getD i default with
          binom_fdr := (benjamini_hochberg (rows.map (fun r => r.binom_p))).getD i 1,
          hyper_fdr := (benjamini_hochberg (rows.map (fun r => r.hyper_p))).getD i 1,
          binom_bonferroni := min ((rows.getD i default).binom_p * (rows.length : ℚ)) 1,
          hyper_bonferroni := min ((rows.getD i default).hyper_p * (rows.length : ℚ)) 1 }))).getD j default).term_id
    = rows[i].term_id
  rw [List.getD_eq_getElem _ _ hj, hjeq]
  show (rows.getD i default).term_id = rows[i].term_id
  rw [List.getD_eq_getElem rows default hi]

/-- C3: on every result table produced by the correction stage of the
enrichment tester, given raw p-values in `[0, 1]`, every row satisfies
`binom_fdr ≥ binom_p`, `hyper_fdr ≥ hyper_p`, `binom_fdr ≤ 1`,
`hyper_fdr ≤ 1`, `binom_bonferroni ≤ 1` and `hyper_bonferroni ≤ 1`. -/
theorem fdr_and_bonferroni_bounds (rows : List EnrichmentRow)
    (hb : ∀ r ∈ rows, 0 ≤ r.binom_p ∧ r.binom_p ≤ 1 ∧ 0 ≤ r.hyper_p ∧ r.hyper_p ≤ 1) :
    ∀ r ∈ addCorrections rows,
      r.binom_p ≤ r.binom_fdr ∧ r.binom_fdr ≤ 1
      ∧ r.hyper_p ≤ r.hyper_fdr ∧ r.hyper_fdr ≤ 1
      ∧ r.binom_bonferroni ≤ 1 ∧ r.hyper_bonferroni ≤ 1 := by
  intro r hr
  obtain ⟨i, hi, _, hbp, hhp, hbf, hhf, hbb, hhb⟩ := mem_addCorrections rows r hr
  have hmapb : ∀ p ∈ rows.map (fun x => x.binom_p), 0 ≤ p ∧ p ≤ 1 := by
    intro p hp
    obtain ⟨x, hx, hxe⟩ := List.mem_map.mp hp
    rw [← hxe]; exact ⟨(hb x hx).1, (hb x hx).2.1⟩
  have hmaph : ∀ p ∈ rows.map (fun x => x.hyper_p), 0 ≤ p ∧ p ≤ 1 := by
    intro p hp
    obtain ⟨x, hx, hxe⟩ := List.mem_map.mp hp
    rw [← hxe]; exact ⟨(hb x hx).2.2.1, (hb x hx).2.2.2⟩
  have hib : i < (rows.map (fun x => x.binom_p)).length := by
    rw [List.length_map]; exact hi
  have hih : i < (rows.map (fun x => x.hyper_p)).length := by
    rw [List.length_map]; exact hi
  have hbhb := benjamini_hochberg_getD _ hmapb i hib
  have hbhh := benjamini_hochberg_getD _ hmaph i hih
  have hgb : (rows.map (fun x => x.binom_p)).getD i 0 = rows[i].binom_p := by
    rw [List.getD_eq_getElem _ _ hib, List.getElem_map]
  have hgh : (rows.map (fun x => x.hyper_p)).getD i 0 = rows[i].hyper_p := by
    rw [List.getD_eq_getElem _ _ hih, List.getElem_map]
  rw [hgb] at hbhb
  rw [hgh] at hbhh
  refine ⟨?_, ?_, ?_, ?_, ?_, ?_⟩
  · rw [hbp, hbf]; exact hbhb.1
  · rw [hbf]; exact hbhb.2
  · rw [hhp, hhf]; exact hbhh.1
  · rw [hhf]; exact hbhh.2
  · rw [hbb]; exact min_le_right _ _
  · rw [hhb]; exact min_le_right _ _

/-- Witness for C3: the single row of the corrected one-row table with
`binom_p = 1/2`, `hyper_p = 1/3` satisfies all six bounds. -/
theorem fdr_and_bonferroni_bounds_witness :
    ((addCorrections [sampleRow]).getD 0 default).binom_p
      ≤ ((addCorrections [sampleRow]).getD 0 default).binom_fdr
    ∧ ((addCorrections [sampleRow]).getD 0 default).binom_fdr ≤ 1
    ∧ ((addCorrections [sampleRow]).getD 0 default).hyper_p
      ≤ ((addCorrections [sampleRow]).getD 0 default).hyper_fdr
    ∧ ((addCorrections [sampleRow]).getD 0 default).hyper_fdr ≤ 1
    ∧ ((addCorrections [sampleRow]).getD 0 default).binom_bonferroni ≤ 1
    ∧ ((addCorrections [sampleRow]).getD 0 default).hyper_bonferroni ≤ 1 := by
  have hlen : 0 < (addCorrections [sampleRow]).length := by
    simp [addCorrections, List.length_insertionSort]
  have hmem : (addCorrections [sampleRow]).getD 0 default ∈ addCorrections [sampleRow] := by
    rw [List.getD_eq_getElem _ _ hlen]
    exact List.getElem_mem hlen
  exact fdr_and_bonferroni_bounds [sampleRow] (by
    intro r hr
    rw [List.mem_singleton] at hr
    subst hr
    refine ⟨by norm_num [sampleRow], by norm_num [sampleRow],
      by norm_num [sampleRow], by norm_num [sampleRow]⟩) _ hmem

/-- A row produced by `buildRow` carries its term's id, and is only
produced when the term has a region hit or a gene hit. -/
theorem buildRow_some (n_regions : ℕ) (region_genes : List (String × Finset String))
    (hit_genes : Finset String) (genome_fractions : List (String × ℚ))
    (total_genes : ℕ) (entry : String × GeneSet) (r : EnrichmentRow)
    (h : buildRow n_regions region_genes hit_genes genome_fractions total_genes entry
      = some r) :
    r.term_id = entry.1
    ∧ ¬(regionsHittingTerm region_genes entry.2.genes = 0
        ∧ genesInTermHit hit_genes entry.2.genes = 0) := by
  by_cases hc : regionsHittingTerm region_genes entry.2.genes = 0
      ∧ genesInTermHit hit_genes entry.2.genes = 0
  · rw [buildRow] at h
    simp only [if_pos hc] at h
    exact absurd h (by simp)
  · rw [buildRow] at h
    simp only [if_neg hc, Option.some.injEq] at h
    exact ⟨by rw [← h], hc⟩

/-- A term with a region hit or a gene hit always produces a row. -/
theorem buildRow_isSome (n_regions : ℕ) (region_genes : List (String × Finset String))
    (hit_genes : Finset String) (genome_fractions : List (String × ℚ))
    (total_genes : ℕ) (entry : String × GeneSet)
    (hc : ¬(regionsHittingTerm region_genes entry.2.genes = 0
        ∧ genesInTermHit hit_genes entry.2.genes = 0)) :
    ∃ r, buildRow n_regions region_genes hit_genes genome_fractions total_genes entry
      = some r ∧ r.term_id = entry.1 := by
  have hsome : (buildRow n_regions region_genes hit_genes genome_fractions total_genes
      entry).isSome = true := by
    rw [buildRow]
    simp only [if_neg hc, Option.isSome_some]
  obtain ⟨r, hr⟩ := Option.isSome_iff_exists.mp hsome
  exact ⟨r, hr, (buildRow_some n_regions region_genes hit_genes genome_fractions
    total_genes entry r hr).1⟩

/-- C9: the enrichment output table contains a row for a tested term iff
the term's region-hit count or gene-hit count is nonzero; a term with
both counts zero never appears (the skip at `great.py` lines 394-396).
Term ids are unique in a collection (it models a `term_id`-keyed
dict). -/
theorem term_row_iff (n_regions : ℕ) (region_genes : List (String × Finset String))
    (hit_genes : Finset String) (collection : List (String × GeneSet))
    (genome_fractions : List (String × ℚ)) (total_genes : ℕ)
    (hkeys : (collection.map Prod.fst).Nodup)
    (entry : String × GeneSet) (hentry : entry ∈ collection) :
    (∃ row ∈ test_enrichment n_regions region_genes hit_genes collection
        genome_fractions total_genes, row.term_id = entry.1)
    ↔ (regionsHittingTerm region_genes entry.2.genes ≠ 0
        ∨ genesInTermHit hit_genes entry.2.genes ≠ 0) := by
  constructor
  · rintro ⟨row, hrow, hid⟩
    cases hres : (collection.filterMap
        (buildRow n_regions region_genes hit_genes genome_fractions total_genes)).isEmpty with
    | true =>
      rw [test_enrichment] at hrow
      simp only [hres, if_true] at hrow
      exact absurd hrow (List.not_mem_nil row)
    | false =>
      rw [test_enrichment] at hrow
      simp only [hres, Bool.false_eq_true, if_false] at hrow
      obtain ⟨i, hi, hterm, _⟩ := mem_addCorrections _ row hrow
      have hmem : (collection.filterMap
          (buildRow n_regions region_genes hit_genes genome_fractions total_genes))[i]
          ∈ collection.filterMap
            (buildRow n_regions region_genes hit_genes genome_fractions total_genes) :=
        List.getElem_mem hi
      obtain ⟨e, he, hFe⟩ := List.mem_filterMap.mp hmem
      have hfa := buildRow_some n_regions region_genes hit_genes genome_fractions
        total_genes e _ hFe
      have he1 : e.1 = entry.1 := by
        rw [← hfa.1, ← hterm, hid]
      have hee : e = entry := List.inj_on_of_nodup_map hkeys he hentry he1
      rw [← hee]
      exact not_and_or.mp hfa.2
  · intro hc
    obtain ⟨r, hFr, hrid⟩ := buildRow_isSome n_regions region_genes hit_genes
      genome_fractions total_genes entry (not_and_or.mpr hc)
    have hrmem : r ∈ collection.filterMap
        (buildRow n_regions region_genes hit_genes genome_fractions total_genes) :=
      List.mem_filterMap.mpr ⟨entry, hentry, hFr⟩
    have hne : (collection.filterMap
        (buildRow n_regions region_genes hit_genes genome_fractions total_genes)).isEmpty
        = false := by
      cases hE : (collection.filterMap
          (buildRow n_regions region_genes hit_genes genome_fractions total_genes)).isEmpty with
      | true =>
        rw [List.isEmpty_iff] at hE
        rw [hE] at hrmem
        exact absurd hrmem (List.not_mem_nil r)
      | false => rfl
    obtain ⟨i, hi, hieq⟩ := List.mem_iff_getElem.mp hrmem
    obtain ⟨row, hrowmem, hrowid⟩ := term_id_mem_addCorrections
      (collection.filterMap
        (buildRow n_regions region_genes hit_genes genome_fractions total_genes)) i hi
    refine ⟨row, ?_, ?_⟩
    · rw [test_enrichment]
      simp only [hne, Bool.false_eq_true, if_false]
      exact hrowmem
    · rw [hrowid, hieq, hrid]

/-- Witness for C9: two terms, one hit by the single region and present
in the output, one with zero counts. -/
theorem term_row_iff_witness :
    (∃ row ∈ test_enrichment 1 [("chr1:0-10", {"g1"})] {"g1"} [termHit, termMiss]
        [] 1, row.term_id = termHit.1)
    ↔ (regionsHittingTerm [("chr1:0-10", {"g1"})] termHit.2.genes ≠ 0
        ∨ genesInTermHit {"g1"} termHit.2.genes ≠ 0) :=
  term_row_iff 1 [("chr1:0-10", {"g1"})] {"g1"} [termHit, termMiss] [] 1
    (by decide) termHit (List.mem_cons_self termHit [termMiss])
